import Mathlib

/-!
Verification of the Lil-Cheetah router core (src/index.js): the pattern
compiler, route matcher, parameter extraction and the request-dispatch
pipeline, embedded shallowly as executable Lean definitions, together with
theorems checking the specification against that embedding.

Strings are modelled as Lean String values; the character-level scans of the
source are modelled on the underlying character list (String.data).  The
imperative loop of parseRoutePattern (which repeatedly re-slices the pattern
string and resets its index) is expressed as a structural recursion over the
remaining character list with a mode flag: mode true corresponds to the state
right after a segment was consumed and the loop is skipping forward to the
character after the next separator (pattern = pattern.substring(index);
index = 1), mode false corresponds to dispatching on the current character.
-/

namespace LilCheetah

/-- The SEPARATOR constant of the source. -/
def SEPARATOR : String := "/"

/-- MATCH_TYPES of the source: static | parameter | any | optional. -/
inductive MatchType where
  | static
  | parameter
  | any
  | optional
deriving DecidableEq

/-- A compiled pattern segment { original, type, value } (source data model). -/
structure Segment where
  original : String
  type : MatchType
  value : String
deriving DecidableEq

/-- LilCheetah.clean (lines 465-483): a lone separator is returned as is;
otherwise leading separators are dropped, then trailing separators are
dropped, and an empty result becomes the separator. -/
def clean (s : String) : String :=
  if s = "/" then s
  else
    let t := s.data.dropWhile (fun c => c = '/')
    let u := (t.reverse.dropWhile (fun c => c = '/')).reverse
    if u = [] then "/" else ⟨u⟩

/-- JavaScript str.split('/') on the character list: splitting on the slash
character, keeping empty pieces between adjacent separators. -/
def splitOnSlash : List Char → List (List Char)
  | [] => [[]]
  | '/' :: cs => [] :: splitOnSlash cs
  | c :: cs =>
    match splitOnSlash cs with
    | [] => [[c]]
    | p :: ps => (c :: p) :: ps

/-- LilCheetah.split (lines 485-493): clean, then either the single
separator piece or the slash-split pieces. -/
def split (s : String) : List String :=
  let c := clean s
  if c = "/" then ["/"] else (splitOnSlash c.data).map (fun l => ⟨l⟩)

/-- The truncation applied to an optional parameter name: the source records
reset_index at every question mark scanned (so the last one wins) and cuts
the value there.  qCut l is l up to (excluding) its last question mark. -/
def qCut (l : List Char) : List Char :=
  (((l.reverse.dropWhile (fun c => c ≠ '?')).drop 1)).reverse

/-- The scanning loop of LilCheetah.parseRoutePattern (lines 314-386) as a
structural recursion over the remaining characters.  Mode true: the source
has just consumed a segment, re-sliced the pattern at the segment end and
restarted the for loop at index 1, i.e. it skips characters up to and
including the next separator.  Mode false: dispatch on the current character:
a colon starts a parameter/optional segment whose value runs to the next
separator (truncated at a question mark, which flips the type to optional);
an asterisk emits an any segment whose value is the whole remaining text and
scanning continues at the next character; otherwise a static segment runs to
the next separator (empty when the current character is itself a separator,
in which case the loop moves just past it). -/
def parseGo (original : String) : Bool → List Char → List Segment
  | _, [] => []
  | true, c :: cs =>
    if c = '/' then parseGo original false cs else parseGo original true cs
  | false, c :: cs =>
    if c = ':' then
      let body := cs.takeWhile (fun d => d ≠ '/')
      (if body.contains '?' then
          Segment.mk original MatchType.optional ⟨qCut body⟩
        else
          Segment.mk original MatchType.parameter ⟨body⟩) ::
        parseGo original true cs
    else if c = '*' then
      Segment.mk original MatchType.any ⟨c :: cs⟩ :: parseGo original false cs
    else if c = '/' then
      Segment.mk original MatchType.static "" :: parseGo original false cs
    else
      Segment.mk original MatchType.static ⟨c :: cs.takeWhile (fun d => d ≠ '/')⟩ ::
        parseGo original true cs

/-- LilCheetah.parseRoutePattern (lines 300-389): clean the pattern; a
pattern that cleans to the separator compiles to the single static separator
segment; otherwise run the scanning loop on the cleaned characters. -/
def parseRoutePattern (pattern : String) : List Segment :=
  let original := pattern
  let cleaned := clean pattern
  if cleaned = "/" then [Segment.mk original MatchType.static cleaned]
  else parseGo original false cleaned.data

/-- Handler behaviours exercised against the dispatch pipeline: return a
plain value, throw synchronously, return a thenable that rejects with the
given error, or invoke the continuation (with no argument, or with an error
argument) and then return a plain value. -/
inductive HBehavior where
  | ret
  | throwSync (e : String)
  | retRejecting (e : String)
  | callNext (arg : Option String)
deriving DecidableEq

/-- A handler function, identified by name, with its behaviour. -/
structure Handler where
  name : String
  behavior : HBehavior
deriving DecidableEq

/-- A registered route { pattern, handlers } (source data model). -/
structure Route where
  pattern : List Segment
  handlers : List Handler
deriving DecidableEq

/-- LilCheetah.isMatch (lines 435-444): a piece matches a static segment on
exact equality; a piece equal to the separator only matches optional or any
segments; any other piece (including an absent one, i.e. an out-of-range
undefined index) matches every non-static segment. -/
def isMatch (url_piece : Option String) (pattern_piece : Segment) : Bool :=
  decide ((url_piece = some pattern_piece.value ∧ pattern_piece.type = MatchType.static) ∨
    (if url_piece = some SEPARATOR then
       pattern_piece.type = MatchType.optional ∨ pattern_piece.type = MatchType.any
     else pattern_piece.type ≠ MatchType.static))

/-- LilCheetah.isFullMatch (lines 422-433): every pattern position must
match its piece; positions beyond the pieces get the undefined piece. -/
def isFullMatch (url_pieces : List String) : List Segment → Bool
  | [] => true
  | p :: ps => isMatch url_pieces.head? p && isFullMatch url_pieces.tail ps

/-- The candidate loop of LilCheetah.matchRoutePattern (lines 396-419): for
each route in order, test the length compatibility rule (equal lengths, or
shorter pattern ending in any, or longer pattern ending in optional) and the
per-position full match; the first route passing both is returned as a
singleton and the loop stops. -/
def matchGo (url_pieces : List String) : List Route → List Route
  | [] => []
  | set :: rest =>
    let pattern_length := set.pattern.length
    let pieces := url_pieces.length
    let equal_length := pieces = pattern_length
    let pattern_less_but_any := pattern_length < pieces ∧
      (set.pattern.getLast?.map Segment.type) = some MatchType.any
    let pattern_more_but_optional := pattern_length > pieces ∧
      (set.pattern.getLast?.map Segment.type) = some MatchType.optional
    if (equal_length ∨ pattern_less_but_any ∨ pattern_more_but_optional) ∧
        isFullMatch url_pieces set.pattern then
      [set]
    else matchGo url_pieces rest

/-- LilCheetah.matchRoutePattern (lines 391-420): clean the url, split it
into pieces and run the candidate loop. -/
def matchRoutePattern (url : String) (route_sets : List Route) : List Route :=
  matchGo (split (clean url)) route_sets

/-- JavaScript object assignment parameters[key] = value on an
insertion-ordered association list: overwrite an existing key in place,
otherwise append. -/
def objSet (params : List (String × String)) (k v : String) : List (String × String) :=
  if params.any (fun p => p.1 = k) then
    params.map (fun p => if p.1 = k then (k, v) else p)
  else params ++ [(k, v)]

/-- The forEach of LilCheetah.exec (lines 450-460): walk the pattern
segments with the corresponding pieces; a piece equal to the separator is
skipped; a missing (undefined) or empty piece is falsy and skipped; any
other piece is assigned under the segment value. -/
def execGo (params : List (String × String)) :
    List Segment → List String → List (String × String)
  | [], _ => params
  | p :: ps, pieces =>
    let params' :=
      match pieces.head? with
      | none => params
      | some piece =>
        if piece = "/" then params
        else if piece = "" then params
        else objSet params p.value piece
    execGo params' ps pieces.tail

/-- LilCheetah.exec (lines 446-463): split the url and collect parameters. -/
def exec (url : String) (pattern_pieces : List Segment) : List (String × String) :=
  execGo [] pattern_pieces (split url)

/-- JavaScript object read table[key] || [] on an insertion-ordered table. -/
def tblGet {α : Type} (tbl : List (String × List α)) (k : String) : List α :=
  match tbl.find? (fun p => p.1 = k) with
  | some p => p.2
  | none => []

/-- JavaScript object write table[key] = v: overwrite in place or append. -/
def tblSet {α : Type} (tbl : List (String × List α)) (k : String) (v : List α) :
    List (String × List α) :=
  if tbl.any (fun p => p.1 = k) then
    tbl.map (fun p => if p.1 = k then (k, v) else p)
  else tbl ++ [(k, v)]

/-- The mutable instance state of a LilCheetah router: the global middleware
list, the path-scoped middleware buckets, the per-method route table and the
error_handler option given to the constructor (none when the caller supplied
none, in which case the constructor bound the default error handler). -/
structure App where
  middlewares : List Handler := []
  base_middlewares : List (String × List Handler) := []
  routes : List (String × List Route) := []
  error_handler : Option String := none
deriving DecidableEq

/-- LilCheetah.addRoute (lines 119-131): create the method bucket if absent
and push { pattern: parseRoutePattern(pattern), handlers }. -/
def addRoute (app : App) (method pattern : String) (handlers : List Handler) : App :=
  let parsed_pattern := parseRoutePattern pattern
  let bucket := tblGet app.routes method ++ [Route.mk parsed_pattern handlers]
  { app with routes := tblSet app.routes method bucket }

/-- LilCheetah.appendSeparator (lines 253-257): prefix a separator unless
the path already starts with one. -/
def appendSeparator (path : String) : String :=
  if path.data.head? = some '/' then path else "/" ++ path

/-- The first argument of use: either a handler function or a path string. -/
inductive UsePathArg where
  | fn (h : Handler)
  | path (p : String)
deriving DecidableEq

/-- LilCheetah.use (lines 77-92): a function first argument is concatenated
onto the global middleware list together with the remaining handlers; the
separator path pushes the handlers onto the global middleware list; any
other path records the handlers under the path-scoped bucket keyed by the
separator-prefixed path. -/
def use (app : App) (first : UsePathArg) (handlers : List Handler) : App :=
  match first with
  | UsePathArg.fn h =>
    { app with middlewares := app.middlewares ++ [h] ++ handlers }
  | UsePathArg.path p =>
    if p = "/" then { app with middlewares := app.middlewares ++ handlers }
    else
      let p' := appendSeparator p
      let bucket := tblGet app.base_middlewares p' ++ handlers
      { app with base_middlewares := tblSet app.base_middlewares p' bucket }

/-- The result of LilCheetah.findRoute (lines 133-153): false on no match, a
{ params, handlers } object on a unique match, and a thrown RangeError when
the match list has more than one element. -/
inductive FindOutcome where
  | noRoute
  | found (params : List (String × String)) (handlers : List Handler)
  | ambiguousThrow (msg : String)
deriving DecidableEq

/-- LilCheetah.findRoute (lines 133-153): clean the url, concatenate the
method-specific routes with the wildcard-method routes, run
matchRoutePattern and branch on the number of matches. -/
def findRoute (app : App) (method url0 : String) : FindOutcome :=
  let url := clean url0
  let method_specific_routes := tblGet app.routes method
  let wildcard_routes := tblGet app.routes "*"
  let routes := method_specific_routes ++ wildcard_routes
  match matchRoutePattern url routes with
  | [] => FindOutcome.noRoute
  | [m] => FindOutcome.found (exec url m.pattern) m.handlers
  | _ :: _ :: _ => FindOutcome.ambiguousThrow ("Multiple handler matches for " ++ url)

/-- The parsed url object fields used by handleRequest. -/
structure ParsedUrl where
  pathname : String
  query : Option String := none
  search : Option String := none
deriving DecidableEq

/-- The character codes at which LilCheetah.parseUrl falls back to the
external native url parser (lines 277-285).  The source misdefines SPACE as
code 20 and POUND as code 23 (the actual space and hash characters are 32
and 35), so the fallback triggers on codes 20 and 23, faithfully kept here. -/
def parseUrlBailChars : List Char :=
  ['\t', '\n', '\x0c', '\r', '\x14', '\x17', '\u00A0', '\uFEFF']

/-- Index of the first question mark, if any. -/
def firstQIdx : List Char → Option Nat
  | [] => none
  | '?' :: _ => some 0
  | _ :: cs => (firstQIdx cs).map (fun n => n + 1)

/-- LilCheetah.parseUrl (lines 259-298), restricted to the fast path it
implements itself: a url starting with a slash and containing none of the
bail characters has its pathname cut at the first question mark, with query
the text after it and search the text from it.  Urls outside this fragment
are delegated to the external native url parser, modelled as none. -/
def parseUrl (url : String) : Option ParsedUrl :=
  if url.data.head? ≠ some '/' then none
  else if url.data.any (fun c => parseUrlBailChars.contains c) then none
  else
    match firstQIdx url.data with
    | none => some (ParsedUrl.mk url none none)
    | some i => some (ParsedUrl.mk ⟨url.data.take i⟩
        (some ⟨url.data.drop (i + 1)⟩) (some ⟨url.data.drop i⟩))

/-- A request object: the transport supplies method and url; the dispatch
pipeline may attach path, query and search (absent before attachment). -/
structure Request where
  method : String
  url : String
  path : Option String := none
  query : Option String := none
  search : Option String := none
deriving DecidableEq

/-- Observable events of one dispatch: a response.end body written outside
the error handlers, a handler function invocation, an invocation of the
custom error handler configured at construction, the default error handler
writing the error message as the response body, and an exception escaping
handleRequest uncaught. -/
inductive Event where
  | respondEnd (body : String)
  | invoked (name : String)
  | customErrorHandler (name : String) (e : String)
  | defaultErrorEnd (e : String)
  | uncaught (e : String)
deriving DecidableEq

/-- Errors are modelled by their message strings.  Evaluating the fast path
of handleRequest reads the constant handlers declared by const only at line
194, which under JavaScript temporal-dead-zone rules throws a
ReferenceError; this is its modelled message. -/
def jsReferenceErrorTDZ : String :=
  "ReferenceError: Cannot access handlers before initialization"

/-- Modelled message of the TypeError JavaScript throws when a non-function
value (an out-of-range handler slot or an undefined continuation) is
invoked. -/
def jsTypeErrorNotFunction : String := "TypeError: not a function"

/-- LilCheetah.handleError together with defaultErrorHandler (lines
229-243): the constructor set this.error_handler to the supplied handler or
to the bound default, so the truthiness test always dispatches to the
configured one: the custom handler when one was supplied, otherwise the
default, which writes the error message as the response body. -/
def handleError (app : App) (e : String) : List Event :=
  match app.error_handler with
  | some n => [Event.customErrorHandler n e]
  | none => [Event.defaultErrorEnd e]

/-- The loop/next machinery of handleRequest (lines 186-226) on the list of
handlers still to run.  The continuation passed to a handler is undefined
exactly when it is the last one.  An empty remainder models loop() indexing
past the handler array: invoking the undefined slot throws a TypeError that
the try catches and routes to handleError.  A handler that returns plain
ends the chain (advancing only happens through the continuation); a
synchronous throw is caught and routed to handleError; a rejecting thenable
return value has catchError attached, routing the rejection to handleError;
invoking the continuation with an error routes it to handleError and halts,
and invoking it without one resumes the loop at the next handler.  A
handler invoking an undefined continuation throws a TypeError caught by the
enclosing try. -/
def runLoop (app : App) : List Handler → List Event
  | [] => handleError app jsTypeErrorNotFunction
  | h :: rest =>
    Event.invoked h.name ::
      match h.behavior with
      | HBehavior.ret => []
      | HBehavior.throwSync e => handleError app e
      | HBehavior.retRejecting e => handleError app e
      | HBehavior.callNext arg =>
        if rest = [] then handleError app jsTypeErrorNotFunction
        else
          match arg with
          | some e => handleError app e
          | none => runLoop app rest

/-- LilCheetah.handleRequest (lines 155-227).  The url is parsed (none when
delegated to the external native parser, outside the modelled fragment);
findRoute runs on the parsed pathname; a missing route writes the literal
404 body and returns with the request untouched; an ambiguous throw would
escape uncaught.  Only after a route is found are path, query and search
attached to the request.  With no global middleware and exactly one route
handler, the source fast path evaluates handlers[0] while the const handlers
of line 194 is still in its temporal dead zone, so it throws a
ReferenceError that the surrounding try catches and routes to handleError,
without invoking the route handler.  Otherwise the concatenated chain is
executed by the loop. -/
def handleRequest (app : App) (request : Request) : Option (List Event × Request) :=
  match parseUrl request.url with
  | none => none
  | some parsed_url =>
    match findRoute app request.method parsed_url.pathname with
    | FindOutcome.ambiguousThrow msg => some ([Event.uncaught msg], request)
    | FindOutcome.noRoute => some ([Event.respondEnd "404"], request)
    | FindOutcome.found _params route_handlers =>
      let request' := { request with
        path := some parsed_url.pathname
        query := parsed_url.query
        search := parsed_url.search }
      if app.middlewares.length = 0 ∧ route_handlers.length = 1 then
        some (handleError app jsReferenceErrorTDZ, request')
      else
        some (runLoop app (app.middlewares ++ route_handlers), request')

/-- Statement helper: events recording an invocation of the configured
error handling path (custom handler call or default error write). -/
def isErrorHandlerEvent : Event → Bool
  | Event.customErrorHandler _ _ => true
  | Event.defaultErrorEnd _ => true
  | _ => false

end LilCheetah

open LilCheetah

theorem sanity_parse_root : parseRoutePattern "/" =
    [Segment.mk "/" MatchType.static "/"] := by decide

theorem sanity_parse_users_id : parseRoutePattern "/users/:id" =
    [Segment.mk "/users/:id" MatchType.static "users",
     Segment.mk "/users/:id" MatchType.parameter "id"] := by decide

theorem sanity_parse_users_id_opt : parseRoutePattern "/users/:id?" =
    [Segment.mk "/users/:id?" MatchType.static "users",
     Segment.mk "/users/:id?" MatchType.optional "id"] := by decide

theorem sanity_parse_files_any : parseRoutePattern "/files/*" =
    [Segment.mk "/files/*" MatchType.static "files",
     Segment.mk "/files/*" MatchType.any "*"] := by decide

theorem sanity_split : split "/a//b/" = ["a", "", "b"] := by decide

theorem qCut_subset (l : List Char) : qCut l ⊆ l := by
  intro x hx
  unfold qCut at hx
  rw [List.mem_reverse] at hx
  have h1 : x ∈ l.reverse.dropWhile (fun c => c ≠ '?') :=
    List.drop_subset 1 _ hx
  have h2 : x ∈ l.reverse := (List.dropWhile_sublist _).subset h1
  exact List.mem_reverse.mp h2

/-- The invariant of the parseRoutePattern scanning loop: a produced segment
that is not an any segment has a slash-free value, and an any segment's
value is a suffix of the scanned characters beginning with the asterisk. -/
theorem parseGo_mem (original : String) (l : List Char) :
    ∀ (mode : Bool) (seg : Segment), seg ∈ parseGo original mode l →
      (seg.type ≠ MatchType.any → '/' ∉ seg.value.data) ∧
      (seg.type = MatchType.any →
        seg.value.data.head? = some '*' ∧ seg.value.data <:+ l) := by
  induction l with
  | nil => intro mode seg h; simp [parseGo] at h
  | cons c cs ih =>
    intro mode seg h
    have hext : ∀ s : Segment,
        ((s.type ≠ MatchType.any → '/' ∉ s.value.data) ∧
         (s.type = MatchType.any →
           s.value.data.head? = some '*' ∧ s.value.data <:+ cs)) →
        ((s.type ≠ MatchType.any → '/' ∉ s.value.data) ∧
         (s.type = MatchType.any →
           s.value.data.head? = some '*' ∧ s.value.data <:+ c :: cs)) := by
      intro s hs
      exact ⟨hs.1, fun ht => ⟨(hs.2 ht).1, (hs.2 ht).2.trans (List.suffix_cons c cs)⟩⟩
    cases mode with
    | true =>
      rw [parseGo] at h
      by_cases hc : c = '/'
      · rw [if_pos hc] at h
        exact hext seg (ih false seg h)
      · rw [if_neg hc] at h
        exact hext seg (ih true seg h)
    | false =>
      rw [parseGo] at h
      by_cases hcolon : c = ':'
      · rw [if_pos hcolon] at h
        rcases List.mem_cons.mp h with hhead | htail
        · subst hhead
          by_cases hq : (cs.takeWhile (fun d => d ≠ '/')).contains '?'
          · rw [if_pos hq]
            refine ⟨fun _ hmem => ?_, fun ht => by simp [hq] at ht⟩
            have h1 : '/' ∈ cs.takeWhile (fun d => d ≠ '/') := by
              simp only [hq, if_true, String.data] at hmem
              exact qCut_subset _ hmem
            have := List.mem_takeWhile_imp h1
            simp at this
          · rw [if_neg hq]
            refine ⟨fun _ hmem => ?_, fun ht => by simp [hq] at ht⟩
            simp only [hq, if_false, String.data] at hmem
            have := List.mem_takeWhile_imp hmem
            simp at this
        · exact hext seg (ih true seg htail)
      · rw [if_neg hcolon] at h
        by_cases hstar : c = '*'
        · rw [if_pos hstar] at h
          rcases List.mem_cons.mp h with hhead | htail
          · subst hhead
            refine ⟨fun hne => absurd rfl hne, fun _ => ?_⟩
            subst hstar
            exact ⟨rfl, List.suffix_refl _⟩
          · exact hext seg (ih false seg htail)
        · rw [if_neg hstar] at h
          by_cases hslash : c = '/'
          · rw [if_pos hslash] at h
            rcases List.mem_cons.mp h with hhead | htail
            · subst hhead
              exact ⟨fun _ => by simp, fun ht => by simp at ht⟩
            · exact hext seg (ih false seg htail)
          · rw [if_neg hslash] at h
            rcases List.mem_cons.mp h with hhead | htail
            · subst hhead
              refine ⟨fun _ hmem => ?_, fun ht => by simp at ht⟩
              simp only [String.data] at hmem
              rcases List.mem_cons.mp hmem with h1 | h2
              · exact hslash h1.symm
              · have := List.mem_takeWhile_imp h2
                simp at this
            · exact hext seg (ih true seg htail)

/-- C6 counterexample: the claim that every segment value contains no slash
fails on the code at two concrete patterns.  Compiling /files/*/x produces
an any segment whose value is the text from the asterisk onward, including
a slash; and the root pattern / compiles to the single static segment whose
value is the separator itself. -/
theorem c6_counterexample_any_value_contains_slash :
    (Segment.mk "/files/*/x" MatchType.any "*/x" ∈ parseRoutePattern "/files/*/x" ∧
      '/' ∈ (Segment.mk "/files/*/x" MatchType.any "*/x").value.data) ∧
    (parseRoutePattern "/" = [Segment.mk "/" MatchType.static "/"] ∧
      '/' ∈ (Segment.mk "/" MatchType.static "/").value.data) := by decide

/-- C6 (amended): for every input pattern the compiler produces a flat list
of segments in which every segment other than any segments and the single
static separator segment of a pattern cleaning to the separator has a value
containing no slash; an any segment's value is the remainder of the cleaned
pattern from its asterisk onward (a suffix beginning with the asterisk),
which may contain slashes when the asterisk is not last. -/
theorem c6_segment_values (pattern : String) :
    ∀ seg ∈ parseRoutePattern pattern,
      (clean pattern = "/" → seg = Segment.mk pattern MatchType.static "/") ∧
      (seg.type ≠ MatchType.any → clean pattern ≠ "/" → '/' ∉ seg.value.data) ∧
      (seg.type = MatchType.any →
        seg.value.data.head? = some '*' ∧ seg.value.data <:+ (clean pattern).data) := by
  intro seg hmem
  by_cases hroot : clean pattern = "/"
  · simp only [parseRoutePattern, hroot, if_pos, List.mem_singleton] at hmem
    subst hmem
    refine ⟨fun _ => rfl, fun _ hne => absurd hroot hne, fun ht => ?_⟩
    simp at ht
  · simp only [parseRoutePattern, hroot, if_neg, List.mem_singleton] at hmem
    have h := parseGo_mem pattern (clean pattern).data false seg hmem
    exact ⟨fun hr => absurd hr hroot, fun h1 _ => h.1 h1, h.2⟩

/-- Witness for c6_segment_values: instantiated at the parameter segment of
/users/:id and the any segment of /files/*. -/
theorem c6_witness :
    ('/' ∉ ("id" : String).data) ∧
    (("*" : String).data.head? = some '*' ∧ ("*" : String).data <:+ (clean "/files/*").data) := by
  constructor
  · exact (c6_segment_values "/users/:id"
      (Segment.mk "/users/:id" MatchType.parameter "id") (by decide)).2.1
      (by decide) (by decide)
  · exact (c6_segment_values "/files/*"
      (Segment.mk "/files/*" MatchType.any "*") (by decide)).2.2 (by decide)

theorem matchGo_length_le_one (url_pieces : List String) :
    ∀ route_sets : List Route, (matchGo url_pieces route_sets).length ≤ 1 := by
  intro route_sets
  induction route_sets with
  | nil => simp [matchGo]
  | cons r rs ih =>
    rw [matchGo]
    split
    · simp
    · exact ih

/-- C1: the claim that more than one full match must raise the ambiguous
route condition is contradicted by the code.  The candidate loop of
matchRoutePattern returns on the first matching route, so the match list
never has more than one element and the RangeError branch of findRoute is
unreachable: registering the identical (GET, /a) route twice and matching
GET /a returns the first registration's handlers instead of throwing. -/
theorem c1_ambiguous_route_never_raised :
    findRoute (addRoute (addRoute {} "GET" "/a" [Handler.mk "h1" HBehavior.ret]) "GET" "/a"
        [Handler.mk "h2" HBehavior.ret]) "GET" "/a"
      = FindOutcome.found [("a", "a")] [Handler.mk "h1" HBehavior.ret]
    ∧ ∀ url route_sets, (matchRoutePattern url route_sets).length ≤ 1 := by
  constructor
  · decide
  · intro url route_sets
    exact matchGo_length_le_one _ route_sets

/-- C2: the claim that the fast path invokes the single route handler is
contradicted by the code.  With no global middleware and one route handler,
evaluating handlers[0] reads the const handlers declared only at line 194,
which throws a ReferenceError under temporal-dead-zone rules; the catch
routes it to the error handler and the route handler named h is never
invoked. -/
theorem c2_fast_path_reference_error :
    handleRequest (addRoute {} "GET" "/a" [Handler.mk "h" HBehavior.ret])
        (Request.mk "GET" "/a" none none none)
      = some ([Event.defaultErrorEnd jsReferenceErrorTDZ],
          Request.mk "GET" "/a" (some "/a") none none)
    ∧ Event.invoked "h" ∉ [Event.defaultErrorEnd jsReferenceErrorTDZ] := by decide

/-- C3: the claim that parameter extraction records entries only at
non-static positions is contradicted by the code.  exec never inspects the
segment type, so matching /users/42 against /users/:id records the static
position too and yields the parameters users: users, id: 42 instead of
exactly id: 42. -/
theorem c3_exec_records_static_segments :
    findRoute (addRoute {} "GET" "/users/:id" [Handler.mk "h" HBehavior.ret])
        "GET" "/users/42"
      = FindOutcome.found [("users", "users"), ("id", "42")]
          [Handler.mk "h" HBehavior.ret] := by decide

/-- C4: the pattern /users/:id? does match both /users and /users/5, but
the produced parameter maps are users: users and users: users, id: 5,
not the claimed empty map and id: 5, because exec also records static
positions. -/
theorem c4_optional_pattern_params_include_static :
    findRoute (addRoute {} "GET" "/users/:id?" [Handler.mk "h" HBehavior.ret])
        "GET" "/users"
      = FindOutcome.found [("users", "users")] [Handler.mk "h" HBehavior.ret]
    ∧ findRoute (addRoute {} "GET" "/users/:id?" [Handler.mk "h" HBehavior.ret])
        "GET" "/users/5"
      = FindOutcome.found [("users", "users"), ("id", "5")]
          [Handler.mk "h" HBehavior.ret] := by decide

/-- C10: matching the path /users/ (trailing slash) against the pattern
/users/:id yields no match: clean strips the trailing slash, leaving one
piece against a two-segment pattern whose last segment is a parameter, so
the length compatibility rule rejects the route. -/
theorem c10_trailing_slash_no_match :
    matchRoutePattern "/users/"
        [Route.mk (parseRoutePattern "/users/:id") [Handler.mk "h" HBehavior.ret]] = []
    ∧ findRoute (addRoute {} "GET" "/users/:id" [Handler.mk "h" HBehavior.ret])
        "GET" "/users/"
      = FindOutcome.noRoute := by decide

theorem runLoop_cons_next (app : App) (h : Handler) (rest : List Handler)
    (hb : h.behavior = HBehavior.callNext none) (hne : rest ≠ []) :
    runLoop app (h :: rest) = Event.invoked h.name :: runLoop app rest := by
  rw [runLoop, hb]
  simp [hne]

/-- C5: every error thrown synchronously by a handler, every rejection
surfaced by a handler's thenable return value, and every error passed
explicitly to a defined continuation is routed to handleError, which
dispatches to the configured error handler: the custom error_handler when
one was supplied at construction, otherwise the default that writes the
error message as the response body.  Stated for an erroring handler at any
position of the chain reached through a prefix of handlers that advance. -/
theorem c5_errors_routed_to_error_handler (app : App) (pre : List Handler)
    (hpre : ∀ h ∈ pre, h.behavior = HBehavior.callNext none)
    (name e : String) (rest : List Handler) :
    (runLoop app (pre ++ Handler.mk name (HBehavior.throwSync e) :: rest)
        = pre.map (fun h => Event.invoked h.name) ++ Event.invoked name :: handleError app e)
    ∧ (runLoop app (pre ++ Handler.mk name (HBehavior.retRejecting e) :: rest)
        = pre.map (fun h => Event.invoked h.name) ++ Event.invoked name :: handleError app e)
    ∧ (rest ≠ [] →
        runLoop app (pre ++ Handler.mk name (HBehavior.callNext (some e)) :: rest)
          = pre.map (fun h => Event.invoked h.name) ++ Event.invoked name :: handleError app e)
    ∧ (app.error_handler = none → handleError app e = [Event.defaultErrorEnd e])
    ∧ (∀ n, app.error_handler = some n →
        handleError app e = [Event.customErrorHandler n e]) := by
  induction pre with
  | nil =>
    refine ⟨?_, ?_, fun hrest => ?_, fun hn => ?_, fun n hn => ?_⟩
    · simp [runLoop]
    · simp [runLoop]
    · simp [runLoop, hrest]
    · simp [handleError, hn]
    · simp [handleError, hn]
  | cons h pre ih =>
    have hb : h.behavior = HBehavior.callNext none := hpre h (List.mem_cons_self h pre)
    have hpre' : ∀ x ∈ pre, x.behavior = HBehavior.callNext none :=
      fun x hx => hpre x (List.mem_cons_of_mem h hx)
    have ih' := ih hpre'
    refine ⟨?_, ?_, fun hrest => ?_, ih'.2.2.2.1, ih'.2.2.2.2⟩
    · rw [List.cons_append, runLoop_cons_next app h _ hb (by simp)]
      simp only [List.map_cons, List.cons_append]
      exact congrArg _ ih'.1
    · rw [List.cons_append, runLoop_cons_next app h _ hb (by simp)]
      simp only [List.map_cons, List.cons_append]
      exact congrArg _ ih'.2.1
    · rw [List.cons_append, runLoop_cons_next app h _ hb (by simp)]
      simp only [List.map_cons, List.cons_append]
      exact congrArg _ (ih'.2.2.1 hrest)

/-- Witness for c5_errors_routed_to_error_handler: a middleware that
advances, a handler that passes an error to its continuation, and a final
handler; the error is routed to the default error handler. -/
theorem c5_witness :
    runLoop ({} : App)
        [Handler.mk "m" (HBehavior.callNext none),
         Handler.mk "b" (HBehavior.callNext (some "boom")),
         Handler.mk "t" HBehavior.ret]
      = [Event.invoked "m", Event.invoked "b", Event.defaultErrorEnd "boom"] := by
  have h := (c5_errors_routed_to_error_handler {} [Handler.mk "m" (HBehavior.callNext none)]
    (by decide) "b" "boom" [Handler.mk "t" HBehavior.ret]).2.2.1 (by decide)
  simpa [handleError] using h

/-- C7 counterexample: parseUrl resolves pathname, query and search for the
request url, yet on NoMatch handleRequest writes the 404 body and returns
the request with path, query and search still unattached. -/
theorem c7_counterexample_fields_not_attached_on_nomatch :
    parseUrl "/nope?x=1" = some (ParsedUrl.mk "/nope" (some "x=1") (some "?x=1"))
    ∧ handleRequest ({} : App) (Request.mk "GET" "/nope?x=1" none none none)
        = some ([Event.respondEnd "404"], Request.mk "GET" "/nope?x=1" none none none)
    ∧ (Request.mk "GET" "/nope?x=1" none none none).path = none := by decide

/-- C7 (amended): dispatch resolves path, query and search from the request
url before matching (the matcher consumes the resolved pathname), but it
attaches them to the request object only after findRoute returns a match;
when matching yields NoMatch the request is returned untouched together
with the not-found response. -/
theorem c7_attach_only_on_match (app : App) (req : Request) (parsed : ParsedUrl)
    (h : parseUrl req.url = some parsed) :
    (findRoute app req.method parsed.pathname = FindOutcome.noRoute →
       handleRequest app req = some ([Event.respondEnd "404"], req))
    ∧ (∀ ps hs, findRoute app req.method parsed.pathname = FindOutcome.found ps hs →
         (handleRequest app req).map Prod.snd
           = some (Request.mk req.method req.url (some parsed.pathname)
               parsed.query parsed.search)) := by
  constructor
  · intro hnr
    simp [handleRequest, h, hnr]
  · intro ps hs hf
    rw [handleRequest, h]
    simp only [hf]
    split
    · rfl
    · rfl

/-- Witness for c7_attach_only_on_match: a registered route and a matching
request with a query string; the dispatched request carries the attached
path, query and search. -/
theorem c7_witness :
    (handleRequest (addRoute {} "GET" "/a" [Handler.mk "h" HBehavior.ret])
        (Request.mk "GET" "/a?q=1" none none none)).map Prod.snd
      = some (Request.mk "GET" "/a?q=1" (some "/a") (some "q=1") (some "?q=1")) := by
  have h := (c7_attach_only_on_match (addRoute {} "GET" "/a" [Handler.mk "h" HBehavior.ret])
    (Request.mk "GET" "/a?q=1" none none none)
    (ParsedUrl.mk "/a" (some "q=1") (some "?q=1")) (by decide)).2
    [("a", "a")] [Handler.mk "h" HBehavior.ret] (by decide)
  simpa using h

theorem handleError_congr {a b : App} (h : a.error_handler = b.error_handler)
    (e : String) : handleError a e = handleError b e := by
  unfold handleError
  rw [h]

theorem runLoop_congr {a b : App} (h : a.error_handler = b.error_handler) :
    ∀ hs, runLoop a hs = runLoop b hs := by
  intro hs
  induction hs with
  | nil => simp [runLoop, handleError_congr h]
  | cons x xs ih =>
    rw [runLoop, runLoop]
    refine congrArg _ ?_
    cases x.behavior with
    | ret => rfl
    | throwSync e => exact handleError_congr h e
    | retRejecting e => exact handleError_congr h e
    | callNext arg =>
      by_cases hxs : xs = []
      · simp [hxs, handleError_congr h]
      · cases arg with
        | some e => simp [hxs, handleError_congr h]
        | none => simp [hxs, ih]

theorem findRoute_congr {a b : App} (h : a.routes = b.routes) :
    ∀ m u, findRoute a m u = findRoute b m u := by
  intro m u
  simp [findRoute, h]

theorem handleRequest_congr {a b : App} (h1 : a.middlewares = b.middlewares)
    (h2 : a.routes = b.routes) (h3 : a.error_handler = b.error_handler) :
    ∀ req, handleRequest a req = handleRequest b req := by
  intro req
  unfold handleRequest
  simp only [findRoute_congr h2, h1, handleError_congr h3, runLoop_congr h3]

/-- C8: calling use with a path string other than the separator records the
handlers only in the path-scoped bucket: the global middleware list, the
route table and the error handler are unchanged, and since neither
findRoute nor the dispatch loop ever consults base_middlewares, the
handling of every request is unchanged. -/
theorem c8_use_scoped_path_no_effect (app : App) (p : String)
    (handlers : List Handler) (hp : p ≠ "/") :
    (use app (UsePathArg.path p) handlers).middlewares = app.middlewares
    ∧ (use app (UsePathArg.path p) handlers).routes = app.routes
    ∧ (use app (UsePathArg.path p) handlers).error_handler = app.error_handler
    ∧ ∀ req, handleRequest (use app (UsePathArg.path p) handlers) req
        = handleRequest app req := by
  have h1 : (use app (UsePathArg.path p) handlers).middlewares = app.middlewares := by
    simp [use, hp]
  have h2 : (use app (UsePathArg.path p) handlers).routes = app.routes := by
    simp [use, hp]
  have h3 : (use app (UsePathArg.path p) handlers).error_handler = app.error_handler := by
    simp [use, hp]
  exact ⟨h1, h2, h3, handleRequest_congr h1 h2 h3⟩

/-- Witness for c8_use_scoped_path_no_effect: registering path-scoped
middleware under /admin leaves a concrete request's handling unchanged. -/
theorem c8_witness :
    (use (addRoute {} "GET" "/a" [Handler.mk "h" HBehavior.ret]) (UsePathArg.path "/admin")
        [Handler.mk "m" HBehavior.ret]).middlewares = []
    ∧ handleRequest (use (addRoute {} "GET" "/a" [Handler.mk "h" HBehavior.ret])
          (UsePathArg.path "/admin") [Handler.mk "m" HBehavior.ret])
        (Request.mk "GET" "/a" none none none)
      = handleRequest (addRoute {} "GET" "/a" [Handler.mk "h" HBehavior.ret])
          (Request.mk "GET" "/a" none none none) := by
  have h := c8_use_scoped_path_no_effect (addRoute {} "GET" "/a" [Handler.mk "h" HBehavior.ret])
    "/admin" [Handler.mk "m" HBehavior.ret] (by decide)
  exact ⟨by simpa using h.1, h.2.2.2 (Request.mk "GET" "/a" none none none)⟩

/-- C9: a request whose method and pathname match no registered route gets
the literal 404 body written and the request handed back untouched; no
error handler event (custom or default) occurs on this path. -/
theorem c9_nomatch_writes_404_without_error_handler (app : App) (req : Request)
    (parsed : ParsedUrl) (h1 : parseUrl req.url = some parsed)
    (h2 : findRoute app req.method parsed.pathname = FindOutcome.noRoute) :
    handleRequest app req = some ([Event.respondEnd "404"], req)
    ∧ (handleRequest app req).map (fun r => r.1.any isErrorHandlerEvent)
        = some false := by
  have h : handleRequest app req = some ([Event.respondEnd "404"], req) := by
    simp [handleRequest, h1, h2]
  refine ⟨h, ?_⟩
  rw [h]
  rfl

/-- Witness for c9_nomatch_writes_404_without_error_handler: an app with a
custom error handler and one route still writes 404 for an unmatched path
without invoking the error handler. -/
theorem c9_witness :
    handleRequest { addRoute {} "GET" "/a" [Handler.mk "h" HBehavior.ret] with
          error_handler := some "eh" }
        (Request.mk "GET" "/b" none none none)
      = some ([Event.respondEnd "404"], Request.mk "GET" "/b" none none none) := by
  exact (c9_nomatch_writes_404_without_error_handler
    { addRoute {} "GET" "/a" [Handler.mk "h" HBehavior.ret] with error_handler := some "eh" }
    (Request.mk "GET" "/b" none none none) (ParsedUrl.mk "/b" none none)
    (by decide) (by decide)).1
